import Mathlib

set_option maxHeartbeats 1000000

namespace Espruino

/-!
A shallow embedding of src/jswrap_storage.c (the Storage and StorageFile
wrappers of the Espruino flash journal).  The journal-store primitives
(jsfFindFile, jsfReadFile, jsfWriteFile, jsfEraseFile, jshFlashRead) live in
jsflash.c / jshardware.c, which are not among the sources; they are modelled
from the spec, as marked in the doc comments.  Bytes are naturals, with 255
the erased flash value.  The chunk-size constant STORAGEFILE_CHUNKSIZE is
FLASH_PAGE_SIZE - sizeof(JsfFileHeader), a platform dependent value, so it is
kept as a parameter CS throughout.
-/

/-- Modelled from the spec: the journal store restricted to one stream family.
The records of a stream family differ only in the trailing chunk byte of the
filename (spec section 4.2), so the store is a map from that byte (0..255) to
the body of the live record with that name, or none when absent. -/
abbrev Store := Nat → Option (List Nat)

/-- The in-RAM StorageFile handle: the object fields name, chunk, offset,
addr, mode set by jswrap_storage_open.  The mode is the character code
(114 = r, 119 = w, 97 = a, 0 after erase). -/
structure StorageFile where
  name : List Nat
  chunk : Nat
  offset : Nat
  addr : Nat
  mode : Nat
deriving DecidableEq

/-- Modelled from the spec: jsfFindFile returns the flash address of the live
record, or 0 when absent.  Addresses here are the chunk byte plus one, which
keeps them nonzero; the chunk byte is the int chunk truncated to a char, hence
the modulo 256. -/
def jsfFindFile (st : Store) (c : Nat) : Nat :=
  if (st (c % 256)).isSome then c % 256 + 1 else 0

/-- Body of the record at a nonzero address produced by jsfFindFile. -/
def chunkBody (st : Store) (addr : Nat) : List Nat := (st (addr - 1)).getD []

/-- Modelled from the spec: jsfGetFileSize reads the body length from the
record header. -/
def jsfGetFileSize (st : Store) (addr : Nat) : Nat := (chunkBody st addr).length

/-- Modelled from the spec: jshFlashRead of l bytes starting at addr + off,
where addr is the body address of a record. -/
def jshFlashRead (st : Store) (addr off l : Nat) : List Nat :=
  ((chunkBody st addr).drop off).take l

/-- The one byte read jshFlashRead(&lastCh, addr + jsfGetFileSize(&header) - 1, 1)
used by the append-mode chunk walk. -/
def readLastByte (st : Store) (addr : Nat) : Nat :=
  (jshFlashRead st addr (jsfGetFileSize st addr - 1) 1).getD 0 255

def setChunk (st : Store) (b : Nat) (body : List Nat) : Store :=
  fun x => if x = b then some body else st x

def removeChunk (st : Store) (b : Nat) : Store :=
  fun x => if x = b then none else st x

/-- Modelled from the spec: jsfEraseFile marks the live record deleted and
returns true iff a live record existed. -/
def jsfEraseFile (st : Store) (c : Nat) : Store × Bool :=
  if (st (c % 256)).isSome then (removeChunk st (c % 256), true) else (st, false)

/-- Modelled from the spec (section 4.1 writeFile): with totalSize > 0 the
call reserves a body of that length, writes data at the given offset and
leaves the rest erased (255); on an existing record it may only fill bytes
that are still erased, of a record of the same total size.  With
totalSize = 0 the body is exactly data and the offset must be 0.  Returns the
new store and the success flag. -/
def jsfWriteFile (st : Store) (c : Nat) (data : List Nat) (off tot : Nat) :
    Store × Bool :=
  if tot = 0 then
    match st (c % 256) with
    | none => if off = 0 then (setChunk st (c % 256) data, true) else (st, false)
    | some _ => (st, false)
  else if off + data.length ≤ tot then
    match st (c % 256) with
    | none =>
        (setChunk st (c % 256)
          (List.replicate off 255 ++ data ++
            List.replicate (tot - off - data.length) 255), true)
    | some body =>
        if body.length = tot ∧
            ((body.drop off).take data.length).all (fun b => b == 255) then
          (setChunk st (c % 256)
            (body.take off ++ data ++ body.drop (off + data.length)), true)
        else (st, false)
  else (st, false)

/-- Modelled from the spec: jswrap_flash_write programs bytes at addr + off
inside the record body at addr.  Flash programming can only flip bits 1 to 0
and the caller guarantees the target bytes are erased, so the model is a
plain splice into the body. -/
def flashWriteAddr (st : Store) (addr off : Nat) (bytes : List Nat) : Store :=
  match st (addr - 1) with
  | none => st
  | some body =>
      setChunk st (addr - 1) (body.take off ++ bytes ++ body.drop (off + bytes.length))

/-- The while(ok) loop of jswrap_storagefile_erase: erase the record for chunk
byte 1, 2, ... until an erase fails.  The chunk byte is written by
fname.c[fnamei] = chunk, an int-to-char truncation, hence jsfEraseFile takes
chunk modulo 256.  The loop runs at most 257 times (each success removes one
of at most 256 records), so the structural fuel 258 never runs out. -/
def eraseLoop (st : Store) : Nat → Nat → Store
  | 0, _ => st
  | fuel + 1, chunk =>
      match jsfEraseFile st chunk with
      | (st1, true) => eraseLoop st1 fuel (chunk + 1)
      | (st1, false) => st1

def jswrap_storagefile_erase (st : Store) (f : StorageFile) : Store × StorageFile :=
  (eraseLoop st 258 1, ⟨f.name, 1, 0, 0, 0⟩)

/-- The for(i=0;i<l;i++) scan over a read buffer in the append-mode open,
looking for the first erased byte. -/
def bufFindFF : List Nat → Option Nat
  | [] => none
  | b :: rest => if b = 255 then some 0 else (bufFindFF rest).map (fun i => i + 1)

/-- The while(!foundEnd) scan of jswrap_storage_open in append mode: buffered
reads of up to 64 bytes from the chunk at addr, until the first erased byte or
the end of the chunk.  The offset advances by at least one per iteration, so
fuel CS + 1 is enough when starting from offset 0. -/
def scanForEnd (st : Store) (CS addr : Nat) : Nat → Nat → Nat
  | 0, offset => offset
  | fuel + 1, offset =>
      if CS ≤ offset then offset
      else
        match bufFindFF (jshFlashRead st addr offset (min 64 (CS - offset))) with
        | some i => offset + i
        | none => scanForEnd st CS addr fuel (offset + min 64 (CS - offset))

/-- The while (addr && lastCh != 255 && chunk < 255) walk of
jswrap_storage_open in append mode.  The chunk index strictly increases and
the guard keeps it below 255, so fuel 255 is enough when starting at chunk 1. -/
def appendWalk (st : Store) : Nat → Nat → Nat → Nat → Nat × Nat
  | 0, chunk, addr, _ => (chunk, addr)
  | fuel + 1, chunk, addr, lastCh =>
      if addr ≠ 0 ∧ lastCh ≠ 255 ∧ chunk < 255 then
        appendWalk st fuel (chunk + 1) (jsfFindFile st (chunk + 1))
          (if jsfFindFile st (chunk + 1) ≠ 0 then readLastByte st (jsfFindFile st (chunk + 1))
           else lastCh)
      else (chunk, addr)

/-- jswrap_storage_open.  Returns the constructed handle (none on a mode
error), the store after any side effect (mode w erases an existing stream),
and the error flag of jsExceptionHere.  The name processing keeps the first
8 bytes of the name, as jsvNewFromStringVar(name,0,8) does; the placement of
the chunk byte inside the fixed-width filename is part of the spec-modelled
store and does not appear separately. -/
def jswrap_storage_open (st : Store) (CS : Nat) (name : List Nat)
    (modeVar : String) : Option StorageFile × Store × Bool :=
  if modeVar = "r" ∨ modeVar = "w" ∨ modeVar = "a" then
    let m : Nat := if modeVar = "r" then 114 else if modeVar = "w" then 119 else 97
    let n : List Nat := name.take 8
    let addr0 : Nat := jsfFindFile st 1
    let st1 : Store :=
      if m = 119 ∧ addr0 ≠ 0 then (jswrap_storagefile_erase st ⟨n, 1, 0, 0, 0⟩).1 else st
    let addr1 : Nat := if m = 119 then 0 else addr0
    let walked : Nat × Nat :=
      if m = 97 then
        appendWalk st1 255 1 addr1 (if addr1 ≠ 0 then readLastByte st1 addr1 else 255)
      else (1, addr1)
    let offset : Nat :=
      if m = 97 ∧ walked.2 ≠ 0 then scanForEnd st1 CS walked.2 (CS + 1) 0 else 0
    (some ⟨n, walked.1, offset, walked.2, m⟩, st1, false)
  else (none, st, true)

/-- The for(i=0;i<l;i++) scan over the 32-byte read buffer of
jswrap_storagefile_read_internal.  The first erased byte stops the read with
l = len = i (second component: isReadLine unchanged); in line mode a newline
stops it with l = len = i + 1 and ends line mode (second component false).
Returns none when the whole buffer passes. -/
def chunkScan (isRL : Bool) : List Nat → Option (Nat × Bool)
  | [] => none
  | b :: rest =>
      if b = 255 then some (0, isRL)
      else if isRL = true ∧ b = 10 then some (1, false)
      else
        match chunkScan isRL rest with
        | some (j, r) => some (j + 1, r)
        | none => none

/-- The while(len) loop of jswrap_storagefile_read_internal, carrying the
locals len, isReadLine, chunk, offset, addr and the accumulated result.  The
C code falls through from the next-page block into the buffered read of the
same iteration; here that read happens in the next recursive step, which
computes exactly the same values.  In the buffered-read arm l0 is at least 1
(len is nonzero and offset < CS), so the break on l = 0 can only come from the
buffer scan.  Each step either returns, or moves to a later chunk, or
advances the offset inside the chunk, so 256 * (CS + 2) fuel is never
exhausted from a reachable handle.  Returns the result and the final chunk,
offset and addr fields of the handle. -/
def readLoop (st : Store) (CS : Nat) :
    Nat → Nat → Bool → Nat → Nat → Nat → Option (List Nat) →
    Option (List Nat) × Nat × Nat × Nat
  | 0, _, _, chunk, offset, addr, acc => (acc, chunk, offset, addr)
  | fuel + 1, len, isRL, chunk, offset, addr, acc =>
      if len = 0 then (acc, chunk, offset, addr)
      else if CS ≤ offset then
        if chunk = 255 then (acc, chunk, 0, 0)
        else if jsfFindFile st (chunk + 1) = 0 then (acc, chunk + 1, 0, 0)
        else readLoop st CS fuel len isRL (chunk + 1) 0 (jsfFindFile st (chunk + 1)) acc
      else
        match chunkScan isRL (jshFlashRead st addr offset (min (min len 32) (CS - offset))) with
        | some (j, r) =>
            if j = 0 then (acc, chunk, offset, addr)
            else
              readLoop st CS fuel (if r then 32 else 0) r chunk (offset + j) addr
                (some (acc.getD [] ++
                  (jshFlashRead st addr offset (min (min len 32) (CS - offset))).take j))
        | none =>
            readLoop st CS fuel
              (if isRL then 32 else len - min (min len 32) (CS - offset)) isRL chunk
              (offset + min (min len 32) (CS - offset)) addr
              (some (acc.getD [] ++
                jshFlashRead st addr offset (min (min len 32) (CS - offset))))

/-- The result of a StorageFile read: the returned string (none when nothing
was read or on error), the handle with its updated fields, and whether
jsExceptionHere was called. -/
structure ReadResult where
  result : Option (List Nat)
  file : StorageFile
  err : Bool
deriving DecidableEq

def jswrap_storagefile_read_internal (st : Store) (CS : Nat) (f : StorageFile)
    (len : Int) : ReadResult :=
  if f.mode ≠ 114 then ⟨none, f, true⟩
  else if f.addr = 0 then ⟨none, f, false⟩
  else
    match readLoop st CS (256 * (CS + 2)) (if len < 0 then 32 else len.toNat)
        (decide (len < 0)) f.chunk f.offset f.addr none with
    | (res, chunk, offset, addr) => ⟨res, ⟨f.name, chunk, offset, addr, f.mode⟩, false⟩

def jswrap_storagefile_read (st : Store) (CS : Nat) (f : StorageFile)
    (len : Int) : ReadResult :=
  jswrap_storagefile_read_internal st CS f (if len < 0 then 0 else len)

def jswrap_storagefile_readLine (st : Store) (CS : Nat) (f : StorageFile) : ReadResult :=
  jswrap_storagefile_read_internal st CS f (-1)

/-- The result of a StorageFile write: the store, the handle with its updated
fields, and whether jsExceptionHere was called (by the wrapper or inside a
failed jsfWriteFile). -/
structure WriteResult where
  store : Store
  file : StorageFile
  err : Bool

/-- jswrap_storagefile_write.  remaining = STORAGEFILE_CHUNKSIZE - offset is a
C int; handles reachable from the API keep offset ≤ CS, and the natural
subtraction used here agrees with the C comparison on that range. -/
def jswrap_storagefile_write (st : Store) (CS : Nat) (f : StorageFile)
    (data : List Nat) : WriteResult :=
  if f.mode ≠ 119 ∧ f.mode ≠ 97 then ⟨st, f, true⟩
  else if data.length = 0 then ⟨st, f, false⟩
  else if f.addr = 0 then
    match jsfWriteFile st f.chunk data 0 CS with
    | (st1, true) =>
        ⟨st1, ⟨f.name, f.chunk, data.length, jsfFindFile st1 f.chunk, f.mode⟩, false⟩
    | (st1, false) => ⟨st1, f, true⟩
  else if data.length < CS - f.offset then
    ⟨flashWriteAddr st f.addr f.offset data,
     ⟨f.name, f.chunk, f.offset + data.length, f.addr, f.mode⟩, false⟩
  else
    let st1 := flashWriteAddr st f.addr f.offset (data.take (CS - f.offset))
    if f.chunk = 255 then ⟨st1, f, true⟩
    else
      match jsfWriteFile st1 (f.chunk + 1) (data.drop (CS - f.offset)) 0 CS with
      | (st2, true) =>
          ⟨st2, ⟨f.name, f.chunk + 1, (data.drop (CS - f.offset)).length,
                 jsfFindFile st2 (f.chunk + 1), f.mode⟩, false⟩
      | (st2, false) => ⟨st2, ⟨f.name, f.chunk + 1, f.offset, f.addr, f.mode⟩, true⟩

/-!  The name-keyed journal used by the plain Storage functions. -/

/-- Modelled from the spec: the full journal store keyed by the fixed-width
filename. -/
abbrev FileStore := List Nat → Option (List Nat)

/-- Modelled from the spec: jsfNameFromVar builds the fixed-width N = 8 byte
filename, truncating longer names and right-padding shorter ones with 0. -/
def jsfNameFromVar (name : List Nat) : List Nat :=
  name.take 8 ++ List.replicate (8 - name.length) 0

/-- Modelled from the spec: jsfReadFile returns the live record body, or
nothing when absent. -/
def jsfReadFile (fs : FileStore) (name : List Nat) : Option (List Nat) := fs name

def updateFileStore (fs : FileStore) (name body : List Nat) : FileStore :=
  fun x => if x = name then some body else fs x

/-- Modelled from the spec (section 4.1 writeFile), on the name-keyed journal;
negative offset or size are argument errors. -/
def jsfWriteFileTop (fs : FileStore) (name data : List Nat) (offset size : Int) :
    FileStore × Bool :=
  if offset < 0 ∨ size < 0 then (fs, false)
  else if size.toNat = 0 then
    match fs name with
    | none => if offset.toNat = 0 then (updateFileStore fs name data, true) else (fs, false)
    | some _ => (fs, false)
  else if offset.toNat + data.length ≤ size.toNat then
    match fs name with
    | none =>
        (updateFileStore fs name
          (List.replicate offset.toNat 255 ++ data ++
            List.replicate (size.toNat - offset.toNat - data.length) 255), true)
    | some body =>
        if body.length = size.toNat ∧
            ((body.drop offset.toNat).take data.length).all (fun b => b == 255) then
          (updateFileStore fs name
            (body.take offset.toNat ++ data ++ body.drop (offset.toNat + data.length)), true)
        else (fs, false)
  else (fs, false)

def jswrap_storage_read (fs : FileStore) (name : List Nat) : Option (List Nat) :=
  jsfReadFile fs (jsfNameFromVar name)

/-- jswrap_storage_readJSON: read the file and hand it to the external JSON
parser (jswrap_json_parse, out of scope), which may itself fail. -/
def jswrap_storage_readJSON {α : Type} (parse : List Nat → Option α)
    (fs : FileStore) (name : List Nat) : Option α :=
  match jsfReadFile fs (jsfNameFromVar name) with
  | none => none
  | some v => parse v

/-- The data argument of jswrap_storage_write: either something used as a
string, or an object (which the C code runs through the external
jswrap_json_stringify). -/
inductive StorageData (α : Type) where
  | str : List Nat → StorageData α
  | obj : α → StorageData α

/-- jswrap_storage_write: an object is stringified and offset and size are
forced to 0 before the common jsfWriteFile call. -/
def jswrap_storage_write {α : Type} (stringify : α → List Nat) (fs : FileStore)
    (name : List Nat) (data : StorageData α) (offset size : Int) : FileStore × Bool :=
  match data with
  | StorageData.obj o => jsfWriteFileTop fs (jsfNameFromVar name) (stringify o) 0 0
  | StorageData.str s => jsfWriteFileTop fs (jsfNameFromVar name) s offset size

/-!  The stream layout the claims quantify over: chunks 1..n exist, each body
is CS bytes, and the concatenated bodies are the data followed by erased
bytes. -/

def padded (CS n : Nat) (data : List Nat) : List Nat :=
  data ++ List.replicate (n * CS) 255

def streamStore (CS n : Nat) (data : List Nat) : Store :=
  fun b =>
    if 1 ≤ b ∧ b ≤ n then some (((padded CS n data).drop ((b - 1) * CS)).take CS)
    else none



/-!  Basic facts about the stream layout. -/

theorem length_padded (CS n : Nat) (data : List Nat) :
    (padded CS n data).length = data.length + n * CS := by
  simp [padded]

theorem padded_getD_lt (CS n : Nat) (data : List Nat) (p : Nat) (d : Nat)
    (h : p < data.length) :
    (padded CS n data).getD p d = data.getD p d := by
  simp only [padded, List.getD_eq_getElem?_getD]
  rw [List.getElem?_append_left h]

theorem padded_getD_ge (CS n : Nat) (data : List Nat) (p : Nat) (d : Nat)
    (h1 : data.length ≤ p) (h2 : p < data.length + n * CS) :
    (padded CS n data).getD p d = 255 := by
  simp only [padded, List.getD_eq_getElem?_getD]
  rw [List.getElem?_append_right h1, List.getElem?_replicate, if_pos (by omega)]
  rfl

theorem padded_getD_ne_ff (CS n : Nat) (data : List Nat) (p : Nat) (d : Nat)
    (hb : ∀ x ∈ data, x ≠ 255) (h : p < data.length) :
    (padded CS n data).getD p d ≠ 255 := by
  rw [padded_getD_lt CS n data p d h, List.getD_eq_getElem data d h]
  exact hb _ (List.getElem_mem h)

theorem pred_mul_add (b CS : Nat) (h : 1 ≤ b) : (b - 1) * CS + CS = b * CS := by
  cases b with
  | zero => omega
  | succ b => simp [Nat.succ_sub_one, Nat.succ_mul]

theorem streamStore_chunk (CS n : Nat) (data : List Nat) (b : Nat)
    (h1 : 1 ≤ b) (h2 : b ≤ n) :
    streamStore CS n data b
      = some (((padded CS n data).drop ((b - 1) * CS)).take CS) := by
  simp [streamStore, h1, h2]

theorem streamStore_none (CS n : Nat) (data : List Nat) (b : Nat)
    (h : n < b) : streamStore CS n data b = none := by
  simp only [streamStore, ite_eq_right_iff]
  intro hc
  omega

theorem chunkBody_streamStore (CS n : Nat) (data : List Nat) (b : Nat)
    (h1 : 1 ≤ b) (h2 : b ≤ n) :
    chunkBody (streamStore CS n data) (b + 1)
      = ((padded CS n data).drop ((b - 1) * CS)).take CS := by
  simp [chunkBody, streamStore_chunk CS n data b h1 h2]

theorem length_chunkBody_streamStore (CS n : Nat) (data : List Nat) (b : Nat)
    (h1 : 1 ≤ b) (h2 : b ≤ n) :
    (chunkBody (streamStore CS n data) (b + 1)).length = CS := by
  rw [chunkBody_streamStore CS n data b h1 h2]
  have hb : b * CS ≤ n * CS := Nat.mul_le_mul_right CS h2
  have hs : (b - 1) * CS + CS = b * CS := pred_mul_add b CS h1
  simp only [List.length_take, List.length_drop, length_padded]
  omega

theorem chunkBody_streamStore_getD (CS n : Nat) (data : List Nat) (b i d : Nat)
    (h1 : 1 ≤ b) (h2 : b ≤ n) (hi : i < CS) :
    (chunkBody (streamStore CS n data) (b + 1)).getD i d
      = (padded CS n data).getD ((b - 1) * CS + i) d := by
  rw [chunkBody_streamStore CS n data b h1 h2]
  simp only [List.getD_eq_getElem?_getD, List.getElem?_take, if_pos hi,
    List.getElem?_drop]

theorem jsfFindFile_streamStore (CS n : Nat) (data : List Nat) (b : Nat)
    (hb : b ≤ 255) :
    jsfFindFile (streamStore CS n data) b
      = if 1 ≤ b ∧ b ≤ n then b + 1 else 0 := by
  have hm : b % 256 = b := Nat.mod_eq_of_lt (by omega)
  by_cases h : 1 ≤ b ∧ b ≤ n
  · simp [jsfFindFile, hm, streamStore_chunk CS n data b h.1 h.2, h]
  · have : streamStore CS n data b = none := by
      simp only [streamStore, ite_eq_right_iff]
      intro hc
      exact absurd hc h
    simp [jsfFindFile, hm, this, h]

theorem jshFlashRead_streamStore (CS n : Nat) (data : List Nat) (b off l : Nat)
    (h1 : 1 ≤ b) (h2 : b ≤ n) (hl : l ≤ CS - off) :
    jshFlashRead (streamStore CS n data) (b + 1) off l
      = ((padded CS n data).drop ((b - 1) * CS + off)).take l := by
  rw [jshFlashRead, chunkBody_streamStore CS n data b h1 h2, List.drop_take,
    List.take_take, List.drop_drop]
  congr 1
  omega

theorem take_padded_eq_take_data (CS n : Nat) (data : List Nat) (p l : Nat)
    (h : p + l ≤ data.length) :
    ((padded CS n data).drop p).take l = (data.drop p).take l := by
  rw [padded, List.drop_append_of_le_length (by omega),
    List.take_append_of_le_length (by simp [List.length_drop]; omega)]

/-!  The buffer scan loops. -/

theorem bufFindFF_none (buf : List Nat)
    (h : ∀ i < buf.length, buf.getD i 0 ≠ 255) : bufFindFF buf = none := by
  induction buf with
  | nil => rfl
  | cons b rest ih =>
    have hb : b ≠ 255 := by simpa using h 0 (by simp)
    have hr := ih fun i hi => by simpa using h (i + 1) (by simpa using Nat.succ_lt_succ hi)
    simp [bufFindFF, hb, hr]

theorem bufFindFF_first (buf : List Nat) (j : Nat) (hj : j < buf.length)
    (hpre : ∀ i < j, buf.getD i 0 ≠ 255) (hFF : buf.getD j 0 = 255) :
    bufFindFF buf = some j := by
  induction buf generalizing j with
  | nil => simp at hj
  | cons b rest ih =>
    cases j with
    | zero =>
      have : b = 255 := by simpa using hFF
      simp [bufFindFF, this]
    | succ j =>
      have hb : b ≠ 255 := by simpa using hpre 0 (by omega)
      have := ih j (by simpa using hj)
        (fun i hi => by simpa using hpre (i + 1) (by omega)) (by simpa using hFF)
      simp [bufFindFF, hb, this]

theorem chunkScan_none_of (isRL : Bool) (buf : List Nat)
    (h : ∀ i < buf.length, buf.getD i 0 ≠ 255 ∧ (isRL = true → buf.getD i 0 ≠ 10)) :
    chunkScan isRL buf = none := by
  induction buf with
  | nil => rfl
  | cons b rest ih =>
    have hb1 : b ≠ 255 := by simpa using (h 0 (by simp)).1
    have hb2 : isRL = true → b ≠ 10 := fun h1 => by simpa using (h 0 (by simp)).2 h1
    have hb2' : ¬(isRL = true ∧ b = 10) := fun hx => hb2 hx.1 hx.2
    have hr := ih fun i hi => by simpa using h (i + 1) (by simpa using Nat.succ_lt_succ hi)
    simp [chunkScan, hb1, hb2', hr]

theorem chunkScan_ff (isRL : Bool) (buf : List Nat) (j : Nat) (hj : j < buf.length)
    (hpre : ∀ i < j, buf.getD i 0 ≠ 255 ∧ (isRL = true → buf.getD i 0 ≠ 10))
    (hFF : buf.getD j 0 = 255) :
    chunkScan isRL buf = some (j, isRL) := by
  induction buf generalizing j with
  | nil => simp at hj
  | cons b rest ih =>
    cases j with
    | zero =>
      have : b = 255 := by simpa using hFF
      simp [chunkScan, this]
    | succ j =>
      have hb1 : b ≠ 255 := by simpa using (hpre 0 (by omega)).1
      have hb2 : isRL = true → b ≠ 10 := fun h1 => by simpa using (hpre 0 (by omega)).2 h1
      have hb2' : ¬(isRL = true ∧ b = 10) := fun hx => hb2 hx.1 hx.2
      have := ih j (by simpa using hj)
        (fun i hi => by simpa using hpre (i + 1) (by omega)) (by simpa using hFF)
      simp [chunkScan, hb1, hb2', this]

theorem chunkScan_nl (buf : List Nat) (j : Nat) (hj : j < buf.length)
    (hpre : ∀ i < j, buf.getD i 0 ≠ 255 ∧ buf.getD i 0 ≠ 10)
    (hNL : buf.getD j 0 = 10) :
    chunkScan true buf = some (j + 1, false) := by
  induction buf generalizing j with
  | nil => simp at hj
  | cons b rest ih =>
    cases j with
    | zero =>
      have hb : b = 10 := by simpa using hNL
      simp [chunkScan, hb]
    | succ j =>
      have hb1 : b ≠ 255 := by simpa using (hpre 0 (by omega)).1
      have hb10 : b ≠ 10 := by simpa using (hpre 0 (by omega)).2
      have := ih j (by simpa using hj)
        (fun i hi => by simpa using hpre (i + 1) (by omega)) (by simpa using hNL)
      simp [chunkScan, hb1, hb10, this]

/-!  Claim theorems: the plain Storage functions. -/

/-- C8: for every name, readJSON returns the value obtained by parsing the
result of read with the external JSON parser, and returns nothing when read
returns nothing. -/
theorem storage_readJSON_eq_parse_read {α : Type} (parse : List Nat → Option α)
    (fs : FileStore) (name : List Nat) :
    jswrap_storage_readJSON parse fs name
      = (jswrap_storage_read fs name).bind parse := by
  unfold jswrap_storage_readJSON jswrap_storage_read jsfReadFile
  cases fs (jsfNameFromVar name) <;> rfl

/-- C9: when the data argument of Storage write is an object, the bytes
written are its JSON stringification and the caller supplied offset and size
are ignored, both treated as 0: the call coincides with writing the
stringification as a string at offset 0 with size 0, so an object can never
perform a partial fill of a pre-allocated file. -/
theorem storage_write_object_ignores_offset_size {α : Type}
    (stringify : α → List Nat) (fs : FileStore) (name : List Nat) (o : α)
    (offset size : Int) :
    jswrap_storage_write stringify fs name (StorageData.obj o) offset size
      = jswrap_storage_write stringify fs name (StorageData.str (stringify o)) 0 0 := rfl

/-!  Claim theorems: StorageFile mode errors. -/

/-- C6: read and readLine with a mode other than r, and write with a mode
that is neither w nor a, surface a wrong-mode error and mutate nothing:
the handle is returned unchanged and the store is untouched. -/
theorem storagefile_wrong_mode_error (st : Store) (CS : Nat) (f : StorageFile)
    (len : Int) (data : List Nat) :
    (f.mode ≠ 114 →
      jswrap_storagefile_read st CS f len = ⟨none, f, true⟩
      ∧ jswrap_storagefile_readLine st CS f = ⟨none, f, true⟩)
    ∧ (f.mode ≠ 119 ∧ f.mode ≠ 97 →
      jswrap_storagefile_write st CS f data = ⟨st, f, true⟩) := by
  refine ⟨fun h => ⟨?_, ?_⟩, fun h => ?_⟩
  · simp [jswrap_storagefile_read, jswrap_storagefile_read_internal, h]
  · simp [jswrap_storagefile_readLine, jswrap_storagefile_read_internal, h]
  · simp [jswrap_storagefile_write, h]

theorem storagefile_wrong_mode_error_witness :
    (jswrap_storagefile_read (fun _ => none) 32 ⟨[], 1, 0, 0, 0⟩ 5
        = ⟨none, ⟨[], 1, 0, 0, 0⟩, true⟩
      ∧ jswrap_storagefile_readLine (fun _ => none) 32 ⟨[], 1, 0, 0, 0⟩
        = ⟨none, ⟨[], 1, 0, 0, 0⟩, true⟩)
    ∧ jswrap_storagefile_write (fun _ => none) 32 ⟨[], 1, 0, 0, 0⟩ [1]
        = ⟨(fun _ => none), ⟨[], 1, 0, 0, 0⟩, true⟩ :=
  ⟨(storagefile_wrong_mode_error (fun _ => none) 32 ⟨[], 1, 0, 0, 0⟩ 5 [1]).1
      (by decide),
   (storagefile_wrong_mode_error (fun _ => none) 32 ⟨[], 1, 0, 0, 0⟩ 5 [1]).2
      ⟨by decide, by decide⟩⟩

/-- C10: after erase the handle mode is 0, so every subsequent read, readLine
or write on the returned handle raises the wrong-mode error and leaves the
handle and the store untouched. -/
theorem storagefile_erase_then_ops_error (st : Store) (CS : Nat)
    (f : StorageFile) (len : Int) (data : List Nat) :
    jswrap_storagefile_read (jswrap_storagefile_erase st f).1 CS
        (jswrap_storagefile_erase st f).2 len
      = ⟨none, (jswrap_storagefile_erase st f).2, true⟩
    ∧ jswrap_storagefile_readLine (jswrap_storagefile_erase st f).1 CS
        (jswrap_storagefile_erase st f).2
      = ⟨none, (jswrap_storagefile_erase st f).2, true⟩
    ∧ jswrap_storagefile_write (jswrap_storagefile_erase st f).1 CS
        (jswrap_storagefile_erase st f).2 data
      = ⟨(jswrap_storagefile_erase st f).1, (jswrap_storagefile_erase st f).2, true⟩ := by
  refine ⟨?_, ?_, ?_⟩ <;>
    simp [jswrap_storagefile_erase, jswrap_storagefile_read,
      jswrap_storagefile_readLine, jswrap_storagefile_read_internal,
      jswrap_storagefile_write]

/-!  Claim theorems: open argument handling. -/


theorem open_a_unfold (st : Store) (CS : Nat) (nm : List Nat) :
    jswrap_storage_open st CS nm "a"
      = (some ⟨nm.take 8,
            (appendWalk st 255 1 (jsfFindFile st 1)
              (if jsfFindFile st 1 ≠ 0 then readLastByte st (jsfFindFile st 1)
               else 255)).1,
            (if (appendWalk st 255 1 (jsfFindFile st 1)
                (if jsfFindFile st 1 ≠ 0 then readLastByte st (jsfFindFile st 1)
                 else 255)).2 ≠ 0
             then scanForEnd st CS
               (appendWalk st 255 1 (jsfFindFile st 1)
                 (if jsfFindFile st 1 ≠ 0 then readLastByte st (jsfFindFile st 1)
                  else 255)).2 (CS + 1) 0
             else 0),
            (appendWalk st 255 1 (jsfFindFile st 1)
              (if jsfFindFile st 1 ≠ 0 then readLastByte st (jsfFindFile st 1)
               else 255)).2,
            97⟩, st, false) := by
  simp [jswrap_storage_open]

/-- C4 (amended): an invalid mode surfaces an error, constructs no handle and
changes no state; but an over-long name is not rejected in any mode: open
keeps only the first 8 bytes of the name, raises no error and returns a
handle.  Mode r leaves the store unchanged; mode w makes exactly the state
change it always makes (erasing an existing stream, independent of the name
length); mode a leaves the store unchanged. -/
theorem storage_open_argument_errors (st : Store) (CS : Nat) (name : List Nat)
    (modeVar : String) :
    (modeVar ≠ "r" ∧ modeVar ≠ "w" ∧ modeVar ≠ "a" →
      jswrap_storage_open st CS name modeVar = (none, st, true))
    ∧ jswrap_storage_open st CS name "r"
        = (some ⟨name.take 8, 1, 0, jsfFindFile st 1, 114⟩, st, false)
    ∧ jswrap_storage_open st CS name "w"
        = (some ⟨name.take 8, 1, 0, 0, 119⟩,
           (if jsfFindFile st 1 ≠ 0 then
              (jswrap_storagefile_erase st ⟨name.take 8, 1, 0, 0, 0⟩).1
            else st), false)
    ∧ (jswrap_storage_open st CS name "a").2 = (st, false)
    ∧ ∃ h, (jswrap_storage_open st CS name "a").1 = some h
        ∧ h.name = name.take 8 ∧ h.mode = 97 := by
  refine ⟨fun h => ?_, ?_, ?_, ?_, ?_⟩
  · simp [jswrap_storage_open, h.1, h.2.1, h.2.2]
  · simp [jswrap_storage_open]
  · simp [jswrap_storage_open]
  · rw [open_a_unfold]
  · rw [open_a_unfold]
    exact ⟨_, rfl, rfl, rfl⟩

theorem storage_open_argument_errors_witness :
    jswrap_storage_open (fun _ => none) 32 [65, 66, 67, 68, 69, 70, 71, 72, 73]
        "x" = (none, (fun _ => none), true)
    ∧ jswrap_storage_open (fun _ => none) 32 [65, 66, 67, 68, 69, 70, 71, 72, 73]
        "r" = (some ⟨[65, 66, 67, 68, 69, 70, 71, 72], 1, 0, 0, 114⟩,
          (fun _ => none), false)
    ∧ jswrap_storage_open (fun _ => none) 32 [65, 66, 67, 68, 69, 70, 71, 72, 73]
        "w" = (some ⟨[65, 66, 67, 68, 69, 70, 71, 72], 1, 0, 0, 119⟩,
          (fun _ => none), false)
    ∧ (jswrap_storage_open (fun _ => none) 32 [65, 66, 67, 68, 69, 70, 71, 72, 73]
        "a").2 = ((fun _ => none), false)
    ∧ ∃ h, (jswrap_storage_open (fun _ => none) 32
          [65, 66, 67, 68, 69, 70, 71, 72, 73] "a").1 = some h
        ∧ h.name = [65, 66, 67, 68, 69, 70, 71, 72] ∧ h.mode = 97 :=
  ⟨(storage_open_argument_errors (fun _ => none) 32
        [65, 66, 67, 68, 69, 70, 71, 72, 73] "x").1
      ⟨by decide, by decide, by decide⟩,
   (storage_open_argument_errors (fun _ => none) 32
        [65, 66, 67, 68, 69, 70, 71, 72, 73] "x").2.1,
   (storage_open_argument_errors (fun _ => none) 32
        [65, 66, 67, 68, 69, 70, 71, 72, 73] "x").2.2.1,
   (storage_open_argument_errors (fun _ => none) 32
        [65, 66, 67, 68, 69, 70, 71, 72, 73] "x").2.2.2.1,
   (storage_open_argument_errors (fun _ => none) 32
        [65, 66, 67, 68, 69, 70, 71, 72, 73] "x").2.2.2.2⟩

/-- C4 counterexample: opening with a 9 byte name (longer than N - 1 = 7)
in mode r surfaces no error and does construct a handle, contrary to the
claim that a too-long name is a user-visible error with no handle. -/
theorem storage_open_long_name_no_error :
    ((jswrap_storage_open (fun _ => none) 32 [65, 66, 67, 68, 69, 70, 71, 72, 73]
        "r").1).isSome = true
    ∧ (jswrap_storage_open (fun _ => none) 32 [65, 66, 67, 68, 69, 70, 71, 72, 73]
        "r").2.2 = false := by
  constructor
  · rfl
  · rfl

/-!  Claim theorems: StorageFile erase. -/

theorem eraseLoop_run (st : Store) (k : Nat) (hk1 : 1 ≤ k) (hk : k ≤ 255)
    (habs : st k = none) (hpres : ∀ j < k, 1 ≤ j → (st j).isSome = true) :
    ∀ fuel j, 1 ≤ j → j ≤ k → k + 1 - j ≤ fuel →
      eraseLoop (fun x => if 1 ≤ x ∧ x < j then none else st x) fuel j
        = fun x => if 1 ≤ x ∧ x < k then none else st x := by
  intro fuel
  induction fuel with
  | zero => intro j h1 hj hf; omega
  | succ fuel ih =>
    intro j h1 hj hf
    have hjm : j % 256 = j := Nat.mod_eq_of_lt (by omega)
    by_cases hjk : j = k
    · subst hjk
      have hnone : (if 1 ≤ j ∧ j < j then none else st j) = none := by
        rw [if_neg (by omega)]
        exact habs
      simp [eraseLoop, jsfEraseFile, hjm, hnone, habs]
    · have hjk' : j < k := by omega
      have hsome : (if 1 ≤ j ∧ j < j then none else st j) = st j := by
        rw [if_neg (by omega)]
      have hpj := hpres j hjk' h1
      have hstep :
          removeChunk (fun x => if 1 ≤ x ∧ x < j then none else st x) j
            = fun x => if 1 ≤ x ∧ x < j + 1 then none else st x := by
        funext x
        simp only [removeChunk]
        by_cases hx : x = j
        · subst hx
          rw [if_pos rfl, if_pos (by omega)]
        · rw [if_neg hx]
          by_cases hx2 : 1 ≤ x ∧ x < j
          · rw [if_pos hx2, if_pos (by omega)]
          · rw [if_neg hx2, if_neg (by omega)]
      have hrec := ih (j + 1) (by omega) (by omega) (by omega)
      simp only [eraseLoop, jsfEraseFile, hjm, hsome, hpj, if_pos, hstep]
      exact hrec

/-- C3 (amended): when some chunk index in 1..255 is absent, erase removes
exactly the chunks before the first absent index, touches nothing else, and
resets the handle to chunk 1, offset 0, addr 0, mode 0.  (When every chunk
1..255 exists the loop is not bounded by 255: the chunk byte wraps modulo 256
and the record with trailing byte 0 is erased too if present, the loop
stopping at the first failed erase.) -/
theorem storagefile_erase_spec (st : Store) (f : StorageFile) (k : Nat)
    (hk1 : 1 ≤ k) (hk : k ≤ 255) (habs : st k = none)
    (hpres : ∀ j < k, 1 ≤ j → (st j).isSome = true) :
    jswrap_storagefile_erase st f
      = ((fun x => if 1 ≤ x ∧ x < k then none else st x), ⟨f.name, 1, 0, 0, 0⟩) := by
  unfold jswrap_storagefile_erase
  refine Prod.ext ?_ rfl
  show eraseLoop st 258 1 = _
  have hbase : (fun x => if 1 ≤ x ∧ x < 1 then none else st x) = st := by
    funext x
    rw [if_neg (by omega)]
  have := eraseLoop_run st k hk1 hk habs hpres 258 1 (by omega) hk1 (by omega)
  rw [hbase] at this
  exact this

theorem storagefile_erase_spec_witness :
    jswrap_storagefile_erase
        (fun b => if 1 ≤ b ∧ b ≤ 2 then some [7] else none) ⟨[9], 3, 1, 4, 114⟩
      = ((fun x => if 1 ≤ x ∧ x < 3 then none
            else (fun b => if 1 ≤ b ∧ b ≤ 2 then some [7] else none : Store) x),
         ⟨[9], 1, 0, 0, 0⟩) :=
  storagefile_erase_spec (fun b => if 1 ≤ b ∧ b ≤ 2 then some [7] else none)
    ⟨[9], 3, 1, 4, 114⟩ 3 (by decide) (by decide) (by decide)
    (by decide)

set_option maxRecDepth 100000 in
/-- C3 counterexample: when every chunk byte 0..255 holds a record (in
particular all of 1..255 exist), the erase loop does not stop at 255: the
chunk byte wraps to 0 and the record with trailing byte 0, present before
the call, is erased as well, contrary to the claim that only chunks 1..255
are iterated. -/
theorem storagefile_erase_wraps_past_255 :
    ((fun b => if b ≤ 255 then some [0] else none : Store) 0).isSome = true
    ∧ (jswrap_storagefile_erase (fun b => if b ≤ 255 then some [0] else none)
        ⟨[], 1, 0, 0, 0⟩).1 0 = none := by
  constructor
  · rfl
  · decide

/-!  Claim theorems: StorageFile write chunk splitting. -/

/-- C5 (amended): for a handle in mode w or a with an allocated chunk, when
the data is nonempty, at least remaining = CS - offset bytes long, and its
remainder fits in one chunk, write puts the first remaining bytes into the
current chunk and then: at chunk index 255 it fails with the file-too-big
error (the partial write into the current chunk has already happened and the
handle fields are unchanged); below 255 it increments the chunk index and
allocates the next chunk with the remainder and totalSize = CS, updating the
handle to the new chunk, offset = remainder length and the new address. -/
theorem storagefile_write_split_spec (st : Store) (CS : Nat)
    (nm data body : List Nat) (c o m : Nat)
    (hCS : 0 < CS)
    (hm : m = 119 ∨ m = 97)
    (hc1 : 1 ≤ c) (hc : c ≤ 255)
    (hbody : st c = some body) (hblen : body.length = CS)
    (ho : o ≤ CS)
    (hrem : CS - o ≤ data.length) (hdata : data.length ≠ 0)
    (hfit : data.length - (CS - o) ≤ CS)
    (hnext : c < 255 → st (c + 1) = none) :
    (c = 255 →
      jswrap_storagefile_write st CS ⟨nm, c, o, c + 1, m⟩ data
        = ⟨setChunk st c (body.take o ++ data.take (CS - o)),
           ⟨nm, c, o, c + 1, m⟩, true⟩)
    ∧ (c < 255 →
      jswrap_storagefile_write st CS ⟨nm, c, o, c + 1, m⟩ data
        = ⟨setChunk (setChunk st c (body.take o ++ data.take (CS - o))) (c + 1)
              (data.drop (CS - o) ++
                List.replicate (CS - (data.length - (CS - o))) 255),
           ⟨nm, c + 1, data.length - (CS - o), c + 2, m⟩, false⟩) := by
  have hmode : ¬(m ≠ 119 ∧ m ≠ 97) := by
    rcases hm with h | h <;> simp [h]
  have haddr : ¬(c + 1 = 0) := by omega
  have hlt : ¬(data.length < CS - o) := by omega
  have htl : (data.take (CS - o)).length = CS - o := by
    simp only [List.length_take]
    omega
  have hst1 : flashWriteAddr st (c + 1) o (data.take (CS - o))
      = setChunk st c (body.take o ++ data.take (CS - o)) := by
    simp only [flashWriteAddr, Nat.add_sub_cancel, hbody]
    rw [htl, (by omega : o + (CS - o) = CS), ← hblen, List.drop_length,
      List.append_nil]
  constructor
  · intro h255
    simp only [jswrap_storagefile_write, if_neg hmode, if_neg hdata,
      if_neg haddr, if_neg hlt, hst1, if_pos h255]
  · intro hlt255
    have hne : ¬(c = 255) := by omega
    have hmod : (c + 1) % 256 = c + 1 := Nat.mod_eq_of_lt (by omega)
    have hnx : setChunk st c (body.take o ++ data.take (CS - o)) (c + 1) = none := by
      simp [setChunk, (by omega : ¬(c + 1 = c)), hnext hlt255]
    have hfits : 0 + (data.drop (CS - o)).length ≤ CS := by
      simp only [List.length_drop]
      omega
    have hwf : jsfWriteFile (setChunk st c (body.take o ++ data.take (CS - o)))
        (c + 1) (data.drop (CS - o)) 0 CS
        = (setChunk (setChunk st c (body.take o ++ data.take (CS - o))) (c + 1)
            (data.drop (CS - o) ++
              List.replicate (CS - (data.length - (CS - o))) 255), true) := by
      simp only [jsfWriteFile, if_neg (by omega : ¬(CS = 0)), hmod, hnx,
        List.replicate_zero, List.nil_append, Nat.sub_zero, List.length_drop]
      rw [if_pos (by omega : 0 + (data.length - (CS - o)) ≤ CS)]
    have hfind : jsfFindFile
        (setChunk (setChunk st c (body.take o ++ data.take (CS - o))) (c + 1)
          (data.drop (CS - o) ++
            List.replicate (CS - (data.length - (CS - o))) 255)) (c + 1)
        = c + 2 := by
      simp [jsfFindFile, hmod, setChunk]
    simp only [jswrap_storagefile_write, if_neg hmode, if_neg hdata,
      if_neg haddr, if_neg hlt, hst1, if_neg hne, hwf, hfind,
      List.length_drop]

theorem storagefile_write_split_spec_witness :
    jswrap_storagefile_write
        (fun b => if b = 1 then some [9, 9, 255, 255] else none) 4
        ⟨[], 1, 2, 2, 119⟩ [1, 2, 3]
      = ⟨setChunk (setChunk (fun b => if b = 1 then some [9, 9, 255, 255] else none)
            1 [9, 9, 1, 2]) 2 [3, 255, 255, 255],
         ⟨[], 2, 1, 3, 119⟩, false⟩ :=
  (storagefile_write_split_spec
      (fun b => if b = 1 then some [9, 9, 255, 255] else none) 4 [] [1, 2, 3]
      [9, 9, 255, 255] 1 2 119 (by decide) (Or.inl rfl) (by decide) (by decide)
      (by decide) (by decide) (by decide) (by decide) (by decide) (by decide)
      (fun _ => by decide)).2 (by decide)

/-- C5 counterexample: two boundary inputs where the claim as stated fails.
With empty data (len = 0 = remaining, the handle sitting at the end of a full
chunk) the claim demands the split and the allocation of chunk 2, but write
returns immediately: no next chunk is created, the chunk index stays 1 and no
error is raised.  With a remainder larger than CHUNK_SIZE (5 bytes, remaining
0, CS 2) the claimed allocation of the next chunk with the remainder is
impossible: no chunk 2 record appears and the call errors instead. -/
theorem storagefile_write_split_empty_or_oversized :
    ((jswrap_storagefile_write (fun b => if b = 1 then some [9, 9] else none) 2
        ⟨[], 1, 2, 2, 119⟩ []).store 2 = none
      ∧ (jswrap_storagefile_write (fun b => if b = 1 then some [9, 9] else none) 2
        ⟨[], 1, 2, 2, 119⟩ []).file.chunk = 1
      ∧ (jswrap_storagefile_write (fun b => if b = 1 then some [9, 9] else none) 2
        ⟨[], 1, 2, 2, 119⟩ []).err = false)
    ∧ ((jswrap_storagefile_write (fun b => if b = 1 then some [9, 9] else none) 2
        ⟨[], 1, 2, 2, 119⟩ [1, 2, 3, 4, 5]).store 2 = none
      ∧ (jswrap_storagefile_write (fun b => if b = 1 then some [9, 9] else none) 2
        ⟨[], 1, 2, 2, 119⟩ [1, 2, 3, 4, 5]).err = true) := by
  refine ⟨⟨?_, ?_, ?_⟩, ?_, ?_⟩ <;> rfl

/-!  Claim theorems: open in append mode. -/

theorem scanForEnd_finds (st : Store) (CS addr r : Nat)
    (hr : r < CS)
    (hpre : ∀ i < r, (chunkBody st addr).getD i 0 ≠ 255)
    (hFF : (chunkBody st addr).getD r 0 = 255)
    (hbl : CS ≤ (chunkBody st addr).length) :
    ∀ fuel off, off ≤ r → CS + 1 - off ≤ fuel →
      scanForEnd st CS addr fuel off = r := by
  intro fuel
  induction fuel with
  | zero => intro off h1 h2; omega
  | succ fuel ih =>
    intro off hoff hf
    have hoCS : ¬(CS ≤ off) := by omega
    have hbuf : ∀ i < min 64 (CS - off),
        (jshFlashRead st addr off (min 64 (CS - off))).getD i 0
          = (chunkBody st addr).getD (off + i) 0 := by
      intro i hi
      simp only [jshFlashRead, List.getD_eq_getElem?_getD, List.getElem?_take,
        if_pos hi, List.getElem?_drop]
    have hbuflen : (jshFlashRead st addr off (min 64 (CS - off))).length
        = min 64 (CS - off) := by
      simp only [jshFlashRead, List.length_take, List.length_drop]
      omega
    by_cases hwin : r < off + min 64 (CS - off)
    · have hfound : bufFindFF (jshFlashRead st addr off (min 64 (CS - off)))
          = some (r - off) := by
        apply bufFindFF_first _ _ (by rw [hbuflen]; omega)
        · intro i hi
          rw [hbuf i (by omega)]
          exact hpre (off + i) (by omega)
        · rw [hbuf (r - off) (by omega), (by omega : off + (r - off) = r)]
          exact hFF
      simp only [scanForEnd, if_neg hoCS, hfound]
      omega
    · have hnone : bufFindFF (jshFlashRead st addr off (min 64 (CS - off)))
          = none := by
        apply bufFindFF_none
        intro i hi
        rw [hbuflen] at hi
        rw [hbuf i hi]
        exact hpre (off + i) (by omega)
      simp only [scanForEnd, if_neg hoCS, hnone]
      exact ih (off + min 64 (CS - off)) (by omega) (by omega)

theorem readLastByte_streamStore (CS n : Nat) (data : List Nat) (b : Nat)
    (hCS : 0 < CS) (h1 : 1 ≤ b) (h2 : b ≤ n) :
    readLastByte (streamStore CS n data) (b + 1)
      = (padded CS n data).getD (b * CS - 1) 255 := by
  have hsize : jsfGetFileSize (streamStore CS n data) (b + 1) = CS := by
    simpa [jsfGetFileSize] using length_chunkBody_streamStore CS n data b h1 h2
  have hgd := chunkBody_streamStore_getD CS n data b (CS - 1) 255 h1 h2 (by omega)
  simp only [readLastByte, hsize, jshFlashRead, List.getD_eq_getElem?_getD,
    List.getElem?_take, if_pos (by omega : (0:Nat) < 1), List.getElem?_drop,
    Nat.add_zero]
  simp only [List.getD_eq_getElem?_getD] at hgd
  rw [hgd]
  congr 2
  have := pred_mul_add b CS h1
  omega

theorem appendWalk_stream (CS n : Nat) (data : List Nat)
    (hCS : 0 < CS) (hn : n ≤ 255) (hb : ∀ x ∈ data, x ≠ 255)
    (hlen : data.length ≤ n * CS) (hfull : data.length < 255 * CS) :
    ∀ fuel k lc, 1 ≤ k → k ≤ data.length / CS + 1 → 256 - k ≤ fuel →
      appendWalk (streamStore CS n data) fuel k
          (jsfFindFile (streamStore CS n data) k)
          (if jsfFindFile (streamStore CS n data) k ≠ 0
           then readLastByte (streamStore CS n data)
             (jsfFindFile (streamStore CS n data) k)
           else lc)
        = (data.length / CS + 1,
           jsfFindFile (streamStore CS n data) (data.length / CS + 1)) := by
  have hqc : data.length / CS * CS + data.length % CS = data.length := by
    rw [Nat.mul_comm]
    exact Nat.div_add_mod data.length CS
  have hqn : data.length / CS ≤ n := by
    have h1 : data.length / CS ≤ n * CS / CS := Nat.div_le_div_right hlen
    rwa [Nat.mul_div_cancel n hCS] at h1
  have hq255 : data.length / CS < 255 := (Nat.div_lt_iff_lt_mul hCS).mpr hfull
  have hmodlt : data.length % CS < CS := Nat.mod_lt _ hCS
  have hqmul : data.length / CS * CS ≤ data.length := Nat.div_mul_le_self _ _
  intro fuel
  induction fuel with
  | zero => intro k lc h1 h2 h3; omega
  | succ fuel ih =>
    intro k lc hk1 hkq hf
    by_cases hkstop : k = data.length / CS + 1
    · subst hkstop
      by_cases hqn' : data.length / CS + 1 ≤ n
      · have hfind : jsfFindFile (streamStore CS n data) (data.length / CS + 1)
            = data.length / CS + 2 := by
          rw [jsfFindFile_streamStore CS n data _ (by omega),
            if_pos ⟨by omega, hqn'⟩]
        have hlast : readLastByte (streamStore CS n data) (data.length / CS + 2)
            = 255 := by
          have := readLastByte_streamStore CS n data (data.length / CS + 1) hCS
            (by omega) hqn'
          rw [this]
          apply padded_getD_ge
          · have hmul : (data.length / CS + 1) * CS
                = data.length / CS * CS + CS := by
              rw [Nat.add_mul, Nat.one_mul]
            omega
          · have hmul2 : (data.length / CS + 1) * CS ≤ n * CS :=
              Nat.mul_le_mul_right CS hqn'
            have hn1 : 1 ≤ n := by omega
            have hnCS : CS ≤ n * CS := by
              calc CS = 1 * CS := (Nat.one_mul CS).symm
              _ ≤ n * CS := Nat.mul_le_mul_right CS hn1
            omega
        rw [hfind, if_pos (by omega : data.length / CS + 2 ≠ 0), hlast]
        simp only [appendWalk]
        rw [if_neg (by simp)]
      · have hfind : jsfFindFile (streamStore CS n data) (data.length / CS + 1)
            = 0 := by
          rw [jsfFindFile_streamStore CS n data _ (by omega),
            if_neg (by omega)]
        rw [hfind, if_neg (by omega : ¬(0:Nat) ≠ 0)]
        simp only [appendWalk]
        rw [if_neg (by simp)]
    · have hkq2 : k ≤ data.length / CS := by omega
      have hkn : k ≤ n := le_trans hkq2 hqn
      have hfind : jsfFindFile (streamStore CS n data) k = k + 1 := by
        rw [jsfFindFile_streamStore CS n data _ (by omega),
          if_pos ⟨hk1, hkn⟩]
      have hlastk : readLastByte (streamStore CS n data) (k + 1) ≠ 255 := by
        rw [readLastByte_streamStore CS n data k hCS hk1 hkn]
        apply padded_getD_ne_ff
        · exact hb
        · have hk2 : k * CS ≤ data.length / CS * CS :=
            Nat.mul_le_mul_right CS hkq2
          have hk3 : 1 * CS ≤ k * CS := Nat.mul_le_mul_right CS hk1
          have hk4 : 1 * CS = CS := Nat.one_mul CS
          omega
      rw [hfind, if_pos (by omega : k + 1 ≠ 0)]
      simp only [appendWalk]
      rw [if_pos ⟨by omega, hlastk, by omega⟩]
      exact ih (k + 1) (readLastByte (streamStore CS n data) (k + 1))
        (by omega) (by omega) (by omega)

/-- C1 (amended): for a stream whose on-flash content is data followed by
erased bytes, with the stream not completely full (fewer than 255 * CS data
bytes), opening in append mode resolves chunk = count / CS + 1 and
offset = count % CS, where count is the number of non-erased stream bytes. -/
theorem open_append_position (CS n : Nat) (data nm : List Nat)
    (hCS : 0 < CS) (hn : n ≤ 255) (hb : ∀ x ∈ data, x ≠ 255)
    (hlen : data.length ≤ n * CS) (hfull : data.length < 255 * CS) :
    ((jswrap_storage_open (streamStore CS n data) CS nm "a").1).map
        (fun h => (h.chunk, h.offset))
      = some (data.length / CS + 1, data.length % CS) := by
  have hqc : data.length / CS * CS + data.length % CS = data.length := by
    rw [Nat.mul_comm]
    exact Nat.div_add_mod data.length CS
  have hqn : data.length / CS ≤ n := by
    have h1 : data.length / CS ≤ n * CS / CS := Nat.div_le_div_right hlen
    rwa [Nat.mul_div_cancel n hCS] at h1
  have hq255 : data.length / CS < 255 := (Nat.div_lt_iff_lt_mul hCS).mpr hfull
  have hmodlt : data.length % CS < CS := Nat.mod_lt _ hCS
  have hqmul : data.length / CS * CS ≤ data.length := Nat.div_mul_le_self _ _
  have hwalk := appendWalk_stream CS n data hCS hn hb hlen hfull 255 1 255
    (Nat.le_refl 1) (Nat.le_add_left 1 _) (by norm_num)
  rw [open_a_unfold, hwalk]
  simp only [Option.map_some']
  generalize hgq : data.length / CS = q at hqc hqn hq255 hqmul hwalk ⊢
  generalize hgr : data.length % CS = r at hqc hmodlt ⊢
  by_cases hqn' : q + 1 ≤ n
  · have hfindq : jsfFindFile (streamStore CS n data) (q + 1) = q + 2 := by
      rw [jsfFindFile_streamStore CS n data _ (by omega),
        if_pos ⟨by omega, hqn'⟩]
    have hblen : (chunkBody (streamStore CS n data) (q + 1 + 1)).length = CS :=
      length_chunkBody_streamStore CS n data (q + 1) (by omega) hqn'
    have hnCS : CS ≤ n * CS := by
      calc CS = 1 * CS := (Nat.one_mul CS).symm
      _ ≤ n * CS := Nat.mul_le_mul_right CS (by omega)
    have hscan : scanForEnd (streamStore CS n data) CS (q + 1 + 1)
        (CS + 1) 0 = r := by
      apply scanForEnd_finds _ _ _ _ hmodlt _ _ (by rw [hblen]) _ 0
        (by omega) (by omega)
      · intro i hi
        rw [chunkBody_streamStore_getD CS n data (q + 1) i 0
          (by omega) hqn' (by omega), Nat.add_sub_cancel]
        apply padded_getD_ne_ff CS n data _ 0 hb
        have hmul : (q + 1) * CS = q * CS + CS := by
          rw [Nat.add_mul, Nat.one_mul]
        omega
      · rw [chunkBody_streamStore_getD CS n data (q + 1) r 0
          (by omega) hqn' hmodlt, Nat.add_sub_cancel]
        apply padded_getD_ge
        · omega
        · omega
    rw [hfindq]
    rw [if_pos (by omega : q + 2 ≠ 0), (by omega : q + 2 = q + 1 + 1), hscan]
  · have hfindq : jsfFindFile (streamStore CS n data) (q + 1) = 0 := by
      rw [jsfFindFile_streamStore CS n data _ (by omega), if_neg (by omega)]
    have hqeq : q = n := by omega
    subst hqeq
    have hr0 : r = 0 := by omega
    rw [hfindq, if_neg (by omega : ¬(0:Nat) ≠ 0), hr0]

theorem open_append_position_witness :
    ((jswrap_storage_open (streamStore 32 1 [1, 2, 3, 4, 5]) 32 [] "a").1).map
        (fun h => (h.chunk, h.offset))
      = some (([1, 2, 3, 4, 5] : List Nat).length / 32 + 1,
          ([1, 2, 3, 4, 5] : List Nat).length % 32) :=
  open_append_position 32 1 [1, 2, 3, 4, 5] [] (by decide) (by decide)
    (by decide) (by decide) (by decide)

set_option maxRecDepth 400000 in
/-- C1 counterexample: a stream of 255 completely full chunks (here CS = 1,
255 data bytes, no erased byte left) is in the domain of the claim, but open
in append mode resolves (chunk, offset) = (255, CS), not the claimed
(count / CS + 1, count % CS) = (256, 0): the walk stops at chunk 255 and the
scan runs off the end of the completely used chunk. -/
theorem open_append_position_full_stream :
    (∀ x ∈ List.replicate 255 0, x ≠ 255)
    ∧ (List.replicate 255 0).length ≤ 255 * 1
    ∧ ((jswrap_storage_open (streamStore 1 255 (List.replicate 255 0)) 1 []
          "a").1).map (fun h => (h.chunk, h.offset))
      ≠ some ((List.replicate 255 0).length / 1 + 1,
          (List.replicate 255 0).length % 1) := by
  refine ⟨by decide, by decide, by decide⟩

/-!  Claim theorems: StorageFile read. -/

theorem take_drop_getD (xs : List Nat) (p l i d : Nat) (hi : i < l) :
    ((xs.drop p).take l).getD i d = xs.getD (p + i) d := by
  simp only [List.getD_eq_getElem?_getD, List.getElem?_take, if_pos hi,
    List.getElem?_drop]

theorem take_drop_length (xs : List Nat) (p l : Nat) (h : p + l ≤ xs.length) :
    ((xs.drop p).take l).length = l := by
  simp only [List.length_take, List.length_drop]
  omega

theorem readLoop_read (CS n : Nat) (data : List Nat)
    (hCS : 0 < CS) (hn : n ≤ 255) (hb : ∀ x ∈ data, x ≠ 255)
    (hlen : data.length ≤ n * CS) :
    ∀ fuel len c o p acc,
      1 ≤ c → c ≤ n → o ≤ CS → p = (c - 1) * CS + o → p ≤ data.length →
      (n + 1 - c) * (CS + 1) + (CS - o) + 2 ≤ fuel →
      ∃ c2 o2 a2,
        readLoop (streamStore CS n data) CS fuel len false c o (c + 1) acc
          = ((if min len (data.length - p) = 0 then acc
              else some (acc.getD [] ++
                (data.drop p).take (min len (data.length - p)))),
             c2, o2, a2)
        ∧ (a2 ≠ 0 →
            (c2 - 1) * CS + o2 = p + min len (data.length - p)
            ∧ a2 = c2 + 1 ∧ 1 ≤ c2 ∧ c2 ≤ n ∧ o2 ≤ CS)
        ∧ (a2 = 0 → p + min len (data.length - p) = data.length ∧ o2 = 0) := by
  intro fuel
  induction fuel with
  | zero => intro len c o p acc h1 h2 h3 h4 h5 h6; omega
  | succ fuel ih =>
    intro len c o p acc hc1 hcn ho hp hpos hf
    by_cases hlen0 : len = 0
    · subst hlen0
      refine ⟨c, o, c + 1, ?_, fun _ => ⟨by omega, rfl, hc1, hcn, ho⟩,
        fun h0 => absurd h0 (by omega)⟩
      simp only [readLoop, if_true]
      rw [if_pos (by omega : min 0 (data.length - p) = 0)]
    · by_cases hoCS : CS ≤ o
      · have hpc : p = c * CS := by
          have := pred_mul_add c CS hc1
          omega
        by_cases hc255 : c = 255
        · have hpdl : p = data.length := by
            have h1 : c * CS ≤ n * CS := Nat.mul_le_mul_right CS hcn
            have h2 : n * CS ≤ c * CS := Nat.mul_le_mul_right CS (by omega)
            omega
          refine ⟨255, 0, 0, ?_, fun h0 => absurd rfl h0, fun _ => ⟨by omega, rfl⟩⟩
          simp only [readLoop]
          rw [if_neg hlen0, if_pos hoCS, if_pos hc255,
            if_pos (by omega : min len (data.length - p) = 0)]
          rw [hc255]
        · by_cases hcn' : c + 1 ≤ n
          · have hfind : jsfFindFile (streamStore CS n data) (c + 1)
                = c + 1 + 1 := by
              rw [jsfFindFile_streamStore CS n data _ (by omega),
                if_pos ⟨by omega, hcn'⟩]
            obtain ⟨c2, o2, a2, hEq, hA, hB⟩ := ih len (c + 1) 0 p acc
              (by omega) hcn' (by omega)
              (by rw [Nat.add_sub_cancel]; omega) hpos
              (by
                have h1 : n + 1 - (c + 1) = n - c := by omega
                have hAB : (n + 1 - c) * (CS + 1)
                    = (n - c) * (CS + 1) + (CS + 1) := by
                  rw [(by omega : n + 1 - c = (n - c) + 1), Nat.add_mul,
                    Nat.one_mul]
                rw [h1]
                omega)
            refine ⟨c2, o2, a2, ?_, hA, hB⟩
            simp only [readLoop]
            rw [if_neg hlen0, if_pos hoCS, if_neg hc255, hfind,
              if_neg (by omega : ¬(c + 1 + 1 = 0))]
            exact hEq
          · have hceq : c = n := by omega
            have hpdl : p = data.length := by
              have h1 : c * CS ≤ n * CS := Nat.mul_le_mul_right CS hcn
              have h2 : n * CS ≤ c * CS := Nat.mul_le_mul_right CS (by omega)
              omega
            have hfind : jsfFindFile (streamStore CS n data) (c + 1) = 0 := by
              rw [jsfFindFile_streamStore CS n data _ (by omega),
                if_neg (by omega)]
            refine ⟨c + 1, 0, 0, ?_, fun h0 => absurd rfl h0,
              fun _ => ⟨by omega, rfl⟩⟩
            simp only [readLoop]
            rw [if_neg hlen0, if_pos hoCS, if_neg hc255, hfind, if_pos rfl,
              if_pos (by omega : min len (data.length - p) = 0)]
      · have hl0le : min (min len 32) (CS - o) ≤ CS - o := Nat.min_le_right _ _
        have hl01 : 1 ≤ min (min len 32) (CS - o) := by omega
        have hbuf : jshFlashRead (streamStore CS n data) (c + 1) o
            (min (min len 32) (CS - o))
            = ((padded CS n data).drop p).take (min (min len 32) (CS - o)) := by
          rw [jshFlashRead_streamStore CS n data c o _ hc1 hcn hl0le, hp]
        have hcCS : c * CS ≤ n * CS := Nat.mul_le_mul_right CS hcn
        have hpmul : (c - 1) * CS + CS = c * CS := pred_mul_add c CS hc1
        have hpl0 : p + min (min len 32) (CS - o) ≤ c * CS := by omega
        have hplen : p + min (min len 32) (CS - o)
            ≤ (padded CS n data).length := by
          rw [length_padded]
          omega
        have hbuflen : (((padded CS n data).drop p).take
            (min (min len 32) (CS - o))).length = min (min len 32) (CS - o) :=
          take_drop_length _ _ _ hplen
        by_cases hwin : p + min (min len 32) (CS - o) ≤ data.length
        · have hscan : chunkScan false (((padded CS n data).drop p).take
              (min (min len 32) (CS - o))) = none := by
            apply chunkScan_none_of
            intro i hi
            rw [hbuflen] at hi
            rw [take_drop_getD _ _ _ _ _ hi]
            exact ⟨padded_getD_ne_ff CS n data _ 0 hb (by omega),
              fun h => by simp at h⟩
          obtain ⟨c2, o2, a2, hEq, hA, hB⟩ := ih
            (len - min (min len 32) (CS - o)) c (o + min (min len 32) (CS - o))
            (p + min (min len 32) (CS - o))
            (some (acc.getD [] ++ (data.drop p).take (min (min len 32) (CS - o))))
            hc1 hcn (by omega) (by omega) (by omega) (by omega)
          refine ⟨c2, o2, a2, ?_, ?_, ?_⟩
          · simp only [readLoop]
            rw [if_neg hlen0, if_neg hoCS, hbuf, hscan,
              take_padded_eq_take_data CS n data p _ hwin,
              if_neg (by simp : ¬(false = true)), hEq]
            by_cases hz : min (len - min (min len 32) (CS - o))
                (data.length - (p + min (min len 32) (CS - o))) = 0
            · rw [if_pos hz, if_neg (by omega : ¬ min len (data.length - p) = 0),
                (by omega : min len (data.length - p) = min (min len 32) (CS - o))]
            · rw [if_neg hz, if_neg (by omega : ¬ min len (data.length - p) = 0)]
              simp only [Option.getD_some]
              rw [(by omega : min len (data.length - p)
                  = min (min len 32) (CS - o)
                    + min (len - min (min len 32) (CS - o))
                      (data.length - (p + min (min len 32) (CS - o)))),
                List.take_add, List.drop_drop, List.append_assoc]
          · intro ha
            obtain ⟨h1, h2, h3, h4, h5⟩ := hA ha
            exact ⟨by omega, h2, h3, h4, h5⟩
          · intro ha
            obtain ⟨h1, h2⟩ := hB ha
            exact ⟨by omega, h2⟩
        · have hnCS1 : CS ≤ n * CS := by
            calc CS = 1 * CS := (Nat.one_mul CS).symm
            _ ≤ n * CS := Nat.mul_le_mul_right CS (by omega)
          have hscan : chunkScan false (((padded CS n data).drop p).take
              (min (min len 32) (CS - o)))
              = some (data.length - p, false) := by
            apply chunkScan_ff false _ _ (by rw [hbuflen]; omega)
            · intro i hi
              rw [take_drop_getD _ _ _ _ _ (by omega)]
              exact ⟨padded_getD_ne_ff CS n data _ 0 hb (by omega),
                fun h => by simp at h⟩
            · rw [take_drop_getD _ _ _ _ _ (by omega),
                (by omega : p + (data.length - p) = data.length)]
              exact padded_getD_ge CS n data _ 0 (by omega) (by omega)
          by_cases hj0 : data.length - p = 0
          · refine ⟨c, o, c + 1, ?_, fun _ => ⟨by omega, rfl, hc1, hcn, ho⟩,
              fun h0 => absurd h0 (by omega)⟩
            simp only [readLoop]
            rw [if_neg hlen0, if_neg hoCS, hbuf, hscan]
            simp only [hj0, if_true]
            rw [if_pos (by omega : min len 0 = 0)]
          · obtain ⟨c2, o2, a2, hEq, hA, hB⟩ := ih 0 c (o + (data.length - p))
              (p + (data.length - p))
              (some (acc.getD [] ++ (data.drop p).take (data.length - p)))
              hc1 hcn (by omega) (by omega) (by omega) (by omega)
            refine ⟨c2, o2, a2, ?_, ?_, ?_⟩
            · simp only [readLoop]
              rw [if_neg hlen0, if_neg hoCS, hbuf, hscan]
              simp only [if_neg hj0]
              rw [List.take_take, inf_eq_left.mpr (by omega),
                take_padded_eq_take_data CS n data p _ (by omega),
                if_neg (by simp : ¬(false = true)), hEq,
                if_pos (by omega :
                  min 0 (data.length - (p + (data.length - p))) = 0),
                if_neg (by omega : ¬ min len (data.length - p) = 0),
                (by omega : min len (data.length - p) = data.length - p)]
            · intro ha
              obtain ⟨h1, h2, h3, h4, h5⟩ := hA ha
              exact ⟨by omega, h2, h3, h4, h5⟩
            · intro ha
              obtain ⟨h1, h2⟩ := hB ha
              exact ⟨by omega, h2⟩

/-- C2: reading len bytes from a stream positioned at p returns exactly
min(len, count - p) bytes of the stream data (nothing if and only if that is
zero), never more than len; the handle fields chunk, offset, addr are updated
to the position after the bytes read, with addr = 0 exactly when the read
ran into the end of the existing chunks (missing next chunk or the end of
chunk 255), which happens only at position count. -/
theorem storagefile_read_spec (CS n c o : Nat) (data nm : List Nat) (len : Int)
    (hCS : 0 < CS) (hn : n ≤ 255) (hb : ∀ x ∈ data, x ≠ 255)
    (hlen : data.length ≤ n * CS) (hc1 : 1 ≤ c) (hcn : c ≤ n) (ho : o ≤ CS)
    (hpos : (c - 1) * CS + o ≤ data.length) (hl : 0 ≤ len) :
    ∃ f2 : StorageFile,
      jswrap_storagefile_read (streamStore CS n data) CS ⟨nm, c, o, c + 1, 114⟩ len
        = ⟨(if min len.toNat (data.length - ((c - 1) * CS + o)) = 0 then none
            else some ((data.drop ((c - 1) * CS + o)).take
              (min len.toNat (data.length - ((c - 1) * CS + o))))),
           f2, false⟩
      ∧ (∀ bs, (jswrap_storagefile_read (streamStore CS n data) CS
            ⟨nm, c, o, c + 1, 114⟩ len).result = some bs
          → bs.length ≤ len.toNat)
      ∧ f2.name = nm ∧ f2.mode = 114
      ∧ (f2.addr ≠ 0 →
          (f2.chunk - 1) * CS + f2.offset
            = (c - 1) * CS + o + min len.toNat (data.length - ((c - 1) * CS + o))
          ∧ f2.addr = f2.chunk + 1)
      ∧ (f2.addr = 0 →
          (c - 1) * CS + o + min len.toNat (data.length - ((c - 1) * CS + o))
            = data.length) := by
  have hfuel : (n + 1 - c) * (CS + 1) + (CS - o) + 2 ≤ 256 * (CS + 2) := by
    have h1 : (n + 1 - c) * (CS + 1) ≤ 255 * (CS + 1) :=
      Nat.mul_le_mul_right _ (by omega)
    omega
  obtain ⟨c2, o2, a2, hEq, hA, hB⟩ := readLoop_read CS n data hCS hn hb hlen
    (256 * (CS + 2)) len.toNat c o ((c - 1) * CS + o) none hc1 hcn ho rfl
    hpos hfuel
  have hread : jswrap_storagefile_read (streamStore CS n data) CS
      ⟨nm, c, o, c + 1, 114⟩ len
      = ⟨(if min len.toNat (data.length - ((c - 1) * CS + o)) = 0 then none
          else some ((data.drop ((c - 1) * CS + o)).take
            (min len.toNat (data.length - ((c - 1) * CS + o))))),
         ⟨nm, c2, o2, a2, 114⟩, false⟩ := by
    rw [jswrap_storagefile_read, if_neg (by omega : ¬len < 0),
      jswrap_storagefile_read_internal]
    simp only []
    rw [if_neg (by simp), if_neg (by simp),
      if_neg (by omega : ¬len < 0), decide_eq_false (by omega : ¬len < 0), hEq]
    simp only [Option.getD_none, List.nil_append]
  refine ⟨⟨nm, c2, o2, a2, 114⟩, hread, ?_, rfl, rfl, ?_, ?_⟩
  · intro bs hbs
    rw [hread] at hbs
    simp only [] at hbs
    by_cases hz : min len.toNat (data.length - ((c - 1) * CS + o)) = 0
    · rw [if_pos hz] at hbs
      cases hbs
    · rw [if_neg hz] at hbs
      have : bs = (data.drop ((c - 1) * CS + o)).take
          (min len.toNat (data.length - ((c - 1) * CS + o))) := by
        exact (Option.some.injEq _ _ ▸ hbs).symm
      rw [this]
      simp only [List.length_take, List.length_drop]
      omega
  · intro ha
    exact ⟨(hA ha).1, (hA ha).2.1⟩
  · intro ha
    exact (hB ha).1

theorem storagefile_read_spec_witness :
    ∃ f2 : StorageFile,
      jswrap_storagefile_read (streamStore 32 1 [97, 98, 99, 100, 101]) 32
          ⟨[], 1, 0, 1 + 1, 114⟩ 100
        = ⟨(if min (100 : Int).toNat
              (([97, 98, 99, 100, 101] : List Nat).length - ((1 - 1) * 32 + 0))
              = 0 then none
            else some ((([97, 98, 99, 100, 101] : List Nat).drop
                ((1 - 1) * 32 + 0)).take
              (min (100 : Int).toNat
                (([97, 98, 99, 100, 101] : List Nat).length
                  - ((1 - 1) * 32 + 0))))),
           f2, false⟩
      ∧ (∀ bs, (jswrap_storagefile_read (streamStore 32 1 [97, 98, 99, 100, 101])
            32 ⟨[], 1, 0, 1 + 1, 114⟩ 100).result = some bs
          → bs.length ≤ (100 : Int).toNat)
      ∧ f2.name = [] ∧ f2.mode = 114
      ∧ (f2.addr ≠ 0 →
          (f2.chunk - 1) * 32 + f2.offset
            = (1 - 1) * 32 + 0 + min (100 : Int).toNat
                (([97, 98, 99, 100, 101] : List Nat).length - ((1 - 1) * 32 + 0))
          ∧ f2.addr = f2.chunk + 1)
      ∧ (f2.addr = 0 →
          (1 - 1) * 32 + 0 + min (100 : Int).toNat
              (([97, 98, 99, 100, 101] : List Nat).length - ((1 - 1) * 32 + 0))
            = ([97, 98, 99, 100, 101] : List Nat).length) :=
  storagefile_read_spec 32 1 1 0 [97, 98, 99, 100, 101] [] 100 (by decide)
    (by decide) (by decide) (by decide) (by decide) (by decide) (by decide)
    (by decide) (by decide)

/-!  Claim theorems: StorageFile readLine. -/

theorem readLoop_line (CS n : Nat) (data : List Nat)
    (hCS : 0 < CS) (hn : n ≤ 255) (hb : ∀ x ∈ data, x ≠ 255)
    (hlen : data.length ≤ n * CS) :
    ∀ fuel c o p e acc,
      1 ≤ c → c ≤ n → o ≤ CS → p = (c - 1) * CS + o →
      p ≤ e → e ≤ data.length →
      ((e = data.length ∧ ∀ i < data.length - p, data.getD (p + i) 0 ≠ 10)
        ∨ (p < e ∧ e - 1 < data.length ∧ data.getD (e - 1) 0 = 10
            ∧ ∀ i < e - 1 - p, data.getD (p + i) 0 ≠ 10)) →
      (n + 1 - c) * (CS + 1) + (CS - o) + 2 ≤ fuel →
      ∃ c2 o2 a2,
        readLoop (streamStore CS n data) CS fuel 32 true c o (c + 1) acc
          = ((if e = p then acc
              else some (acc.getD [] ++ (data.drop p).take (e - p))),
             c2, o2, a2)
        ∧ (a2 ≠ 0 →
            (c2 - 1) * CS + o2 = e ∧ a2 = c2 + 1 ∧ 1 ≤ c2 ∧ c2 ≤ n ∧ o2 ≤ CS)
        ∧ (a2 = 0 → e = data.length ∧ o2 = 0) := by
  intro fuel
  induction fuel with
  | zero => intro c o p e acc h1 h2 h3 h4 h5 h6 h7 h8; omega
  | succ fuel ih =>
    intro c o p e acc hc1 hcn ho hp hpe hel he hf
    by_cases hoCS : CS ≤ o
    · have hpc : p = c * CS := by
        have := pred_mul_add c CS hc1
        omega
      by_cases hc255 : c = 255
      · have hpdl : p = data.length := by
          have h1 : c * CS ≤ n * CS := Nat.mul_le_mul_right CS hcn
          have h2 : n * CS ≤ c * CS := Nat.mul_le_mul_right CS (by omega)
          omega
        refine ⟨255, 0, 0, ?_, fun h0 => absurd rfl h0, fun _ => ⟨by omega, rfl⟩⟩
        simp only [readLoop]
        rw [if_neg (by omega : ¬(32 : Nat) = 0), if_pos hoCS, if_pos hc255,
          if_pos (by omega : e = p), hc255]
      · by_cases hcn' : c + 1 ≤ n
        · have hfind : jsfFindFile (streamStore CS n data) (c + 1)
              = c + 1 + 1 := by
            rw [jsfFindFile_streamStore CS n data _ (by omega),
              if_pos ⟨by omega, hcn'⟩]
          obtain ⟨c2, o2, a2, hEq, hA, hB⟩ := ih (c + 1) 0 p e acc
            (by omega) hcn' (by omega)
            (by rw [Nat.add_sub_cancel]; omega) hpe hel he
            (by
              have h1 : n + 1 - (c + 1) = n - c := by omega
              have hAB : (n + 1 - c) * (CS + 1)
                  = (n - c) * (CS + 1) + (CS + 1) := by
                rw [(by omega : n + 1 - c = (n - c) + 1), Nat.add_mul,
                  Nat.one_mul]
              rw [h1]
              omega)
          refine ⟨c2, o2, a2, ?_, hA, hB⟩
          simp only [readLoop]
          rw [if_neg (by omega : ¬(32 : Nat) = 0), if_pos hoCS, if_neg hc255,
            hfind, if_neg (by omega : ¬(c + 1 + 1 = 0))]
          exact hEq
        · have hpdl : p = data.length := by
            have h1 : c * CS ≤ n * CS := Nat.mul_le_mul_right CS hcn
            have h2 : n * CS ≤ c * CS := Nat.mul_le_mul_right CS (by omega)
            omega
          have hfind : jsfFindFile (streamStore CS n data) (c + 1) = 0 := by
            rw [jsfFindFile_streamStore CS n data _ (by omega),
              if_neg (by omega)]
          refine ⟨c + 1, 0, 0, ?_, fun h0 => absurd rfl h0,
            fun _ => ⟨by omega, rfl⟩⟩
          simp only [readLoop]
          rw [if_neg (by omega : ¬(32 : Nat) = 0), if_pos hoCS, if_neg hc255,
            hfind, if_pos rfl, if_pos (by omega : e = p)]
    · have hl0le : min (min 32 32) (CS - o) ≤ CS - o := Nat.min_le_right _ _
      have hl01 : 1 ≤ min (min 32 32) (CS - o) := by omega
      have hbuf : jshFlashRead (streamStore CS n data) (c + 1) o
          (min (min 32 32) (CS - o))
          = ((padded CS n data).drop p).take (min (min 32 32) (CS - o)) := by
        rw [jshFlashRead_streamStore CS n data c o _ hc1 hcn hl0le, hp]
      have hcCS : c * CS ≤ n * CS := Nat.mul_le_mul_right CS hcn
      have hpmul : (c - 1) * CS + CS = c * CS := pred_mul_add c CS hc1
      have hpl0 : p + min (min 32 32) (CS - o) ≤ c * CS := by omega
      have hplen : p + min (min 32 32) (CS - o)
          ≤ (padded CS n data).length := by
        rw [length_padded]
        omega
      have hbuflen : (((padded CS n data).drop p).take
          (min (min 32 32) (CS - o))).length = min (min 32 32) (CS - o) :=
        take_drop_length _ _ _ hplen
      have hnCS1 : CS ≤ n * CS := by
        calc CS = 1 * CS := (Nat.one_mul CS).symm
        _ ≤ n * CS := Nat.mul_le_mul_right CS (by omega)
      rcases he with ⟨he1, hnl⟩ | ⟨hpe2, hem, hm10, hnl⟩
      · -- no newline before the end of the data
        by_cases hwin : p + min (min 32 32) (CS - o) ≤ e
        · have hscan : chunkScan true (((padded CS n data).drop p).take
              (min (min 32 32) (CS - o))) = none := by
            apply chunkScan_none_of
            intro i hi
            rw [hbuflen] at hi
            rw [take_drop_getD _ _ _ _ _ hi]
            refine ⟨padded_getD_ne_ff CS n data _ 0 hb (by omega), fun _ => ?_⟩
            rw [padded_getD_lt CS n data _ 0 (by omega)]
            exact hnl i (by omega)
          obtain ⟨c2, o2, a2, hEq, hA, hB⟩ := ih c
            (o + min (min 32 32) (CS - o)) (p + min (min 32 32) (CS - o)) e
            (some (acc.getD [] ++
              (data.drop p).take (min (min 32 32) (CS - o))))
            hc1 hcn (by omega) (by omega) hwin hel
            (Or.inl ⟨he1, fun i hi => by
              rw [(by omega : p + min (min 32 32) (CS - o) + i
                = p + (min (min 32 32) (CS - o) + i))]
              exact hnl _ (by omega)⟩)
            (by omega)
          refine ⟨c2, o2, a2, ?_, hA, hB⟩
          simp only [readLoop]
          rw [if_neg (by omega : ¬(32 : Nat) = 0), if_neg hoCS, hbuf, hscan,
            take_padded_eq_take_data CS n data p _ (by omega),
            if_pos trivial, hEq]
          by_cases hz : e = p + min (min 32 32) (CS - o)
          · rw [if_pos hz, if_neg (by omega : ¬(e = p)),
              (by omega : e - p = min (min 32 32) (CS - o))]
          · rw [if_neg hz, if_neg (by omega : ¬(e = p))]
            simp only [Option.getD_some]
            rw [(by omega : e - p = min (min 32 32) (CS - o)
                + (e - (p + min (min 32 32) (CS - o)))),
              List.take_add, List.drop_drop, List.append_assoc]
        · -- the erased byte at position e = data.length is inside the window
          have hscan : chunkScan true (((padded CS n data).drop p).take
              (min (min 32 32) (CS - o))) = some (e - p, true) := by
            apply chunkScan_ff true _ _ (by rw [hbuflen]; omega)
            · intro i hi
              rw [take_drop_getD _ _ _ _ _ (by omega)]
              refine ⟨padded_getD_ne_ff CS n data _ 0 hb (by omega), fun _ => ?_⟩
              rw [padded_getD_lt CS n data _ 0 (by omega)]
              exact hnl i (by omega)
            · rw [take_drop_getD _ _ _ _ _ (by omega),
                (by omega : p + (e - p) = e)]
              exact padded_getD_ge CS n data _ 0 (by omega) (by omega)
          by_cases hj0 : e - p = 0
          · refine ⟨c, o, c + 1, ?_, fun _ => ⟨by omega, rfl, hc1, hcn, ho⟩,
              fun h0 => absurd h0 (by omega)⟩
            simp only [readLoop]
            rw [if_neg (by omega : ¬(32 : Nat) = 0), if_neg hoCS, hbuf, hscan]
            simp only [hj0, if_true]
            rw [if_pos (by omega : e = p)]
          · obtain ⟨c2, o2, a2, hEq, hA, hB⟩ := ih c (o + (e - p))
              (p + (e - p)) e
              (some (acc.getD [] ++ (data.drop p).take (e - p)))
              hc1 hcn (by omega) (by omega) (by omega) hel
              (Or.inl ⟨he1, fun i hi => by omega⟩)
              (by omega)
            refine ⟨c2, o2, a2, ?_, hA, hB⟩
            simp only [readLoop]
            rw [if_neg (by omega : ¬(32 : Nat) = 0), if_neg hoCS, hbuf, hscan]
            simp only [if_neg hj0]
            rw [List.take_take, inf_eq_left.mpr (by omega),
              take_padded_eq_take_data CS n data p _ (by omega),
              if_pos trivial, hEq,
              if_pos (by omega : e = p + (e - p)),
              if_neg (by omega : ¬(e = p))]
      · -- a newline sits at position e - 1
        by_cases hwin : p + min (min 32 32) (CS - o) ≤ e - 1
        · have hscan : chunkScan true (((padded CS n data).drop p).take
              (min (min 32 32) (CS - o))) = none := by
            apply chunkScan_none_of
            intro i hi
            rw [hbuflen] at hi
            rw [take_drop_getD _ _ _ _ _ hi]
            refine ⟨padded_getD_ne_ff CS n data _ 0 hb (by omega), fun _ => ?_⟩
            rw [padded_getD_lt CS n data _ 0 (by omega)]
            exact hnl i (by omega)
          obtain ⟨c2, o2, a2, hEq, hA, hB⟩ := ih c
            (o + min (min 32 32) (CS - o)) (p + min (min 32 32) (CS - o)) e
            (some (acc.getD [] ++
              (data.drop p).take (min (min 32 32) (CS - o))))
            hc1 hcn (by omega) (by omega) (by omega) hel
            (Or.inr ⟨by omega, hem, hm10, fun i hi => by
              rw [(by omega : p + min (min 32 32) (CS - o) + i
                = p + (min (min 32 32) (CS - o) + i))]
              exact hnl _ (by omega)⟩)
            (by omega)
          refine ⟨c2, o2, a2, ?_, hA, hB⟩
          simp only [readLoop]
          rw [if_neg (by omega : ¬(32 : Nat) = 0), if_neg hoCS, hbuf, hscan,
            take_padded_eq_take_data CS n data p _ (by omega),
            if_pos trivial, hEq]
          by_cases hz : e = p + min (min 32 32) (CS - o)
          · rw [if_pos hz, if_neg (by omega : ¬(e = p)),
              (by omega : e - p = min (min 32 32) (CS - o))]
          · rw [if_neg hz, if_neg (by omega : ¬(e = p))]
            simp only [Option.getD_some]
            rw [(by omega : e - p = min (min 32 32) (CS - o)
                + (e - (p + min (min 32 32) (CS - o)))),
              List.take_add, List.drop_drop, List.append_assoc]
        · -- the newline is inside the window
          have hscan : chunkScan true (((padded CS n data).drop p).take
              (min (min 32 32) (CS - o))) = some (e - 1 - p + 1, false) := by
            apply chunkScan_nl _ _ (by rw [hbuflen]; omega)
            · intro i hi
              rw [take_drop_getD _ _ _ _ _ (by omega)]
              refine ⟨padded_getD_ne_ff CS n data _ 0 hb (by omega), ?_⟩
              rw [padded_getD_lt CS n data _ 0 (by omega)]
              exact hnl i (by omega)
            · rw [take_drop_getD _ _ _ _ _ (by omega),
                (by omega : p + (e - 1 - p) = e - 1)]
              rw [padded_getD_lt CS n data _ 0 (by omega)]
              exact hm10
          obtain ⟨c2, o2, a2, hEq, hA, hB⟩ := readLoop_read CS n data hCS hn
            hb hlen fuel 0 c (o + (e - 1 - p + 1)) (p + (e - 1 - p + 1))
            (some (acc.getD [] ++ (data.drop p).take (e - 1 - p + 1)))
            hc1 hcn (by omega) (by omega) (by omega) (by omega)
          refine ⟨c2, o2, a2, ?_, ?_, ?_⟩
          · simp only [readLoop]
            rw [if_neg (by omega : ¬(32 : Nat) = 0), if_neg hoCS, hbuf, hscan]
            simp only [if_neg (by omega : ¬(e - 1 - p + 1 = 0))]
            rw [List.take_take, inf_eq_left.mpr (by omega),
              take_padded_eq_take_data CS n data p _ (by omega),
              if_neg (by simp : ¬(false = true)), hEq,
              if_pos (by omega :
                min 0 (data.length - (p + (e - 1 - p + 1))) = 0),
              if_neg (by omega : ¬(e = p)),
              (by omega : e - p = e - 1 - p + 1)]
          · intro ha
            obtain ⟨h1, h2, h3, h4, h5⟩ := hA ha
            exact ⟨by omega, h2, h3, h4, h5⟩
          · intro ha
            obtain ⟨h1, h2⟩ := hB ha
            exact ⟨by omega, h2⟩

/-- C7: readLine behaves like read but stops after the first newline, which
is included in the result: from position p it returns the stream bytes up to
and including the first newline at or after p, or up to the end of the data
when no newline follows; it returns nothing exactly when already at the end.
The handle is advanced past the returned bytes. -/
theorem storagefile_readLine_spec (CS n c o e : Nat) (data nm : List Nat)
    (hCS : 0 < CS) (hn : n ≤ 255) (hb : ∀ x ∈ data, x ≠ 255)
    (hlen : data.length ≤ n * CS) (hc1 : 1 ≤ c) (hcn : c ≤ n) (ho : o ≤ CS)
    (hpe : (c - 1) * CS + o ≤ e) (hel : e ≤ data.length)
    (he : (e = data.length ∧ ∀ i < data.length - ((c - 1) * CS + o),
            data.getD ((c - 1) * CS + o + i) 0 ≠ 10)
      ∨ ((c - 1) * CS + o < e ∧ e - 1 < data.length ∧ data.getD (e - 1) 0 = 10
          ∧ ∀ i < e - 1 - ((c - 1) * CS + o),
              data.getD ((c - 1) * CS + o + i) 0 ≠ 10)) :
    ∃ f2 : StorageFile,
      jswrap_storagefile_readLine (streamStore CS n data) CS
          ⟨nm, c, o, c + 1, 114⟩
        = ⟨(if e = (c - 1) * CS + o then none
            else some ((data.drop ((c - 1) * CS + o)).take
              (e - ((c - 1) * CS + o)))),
           f2, false⟩
      ∧ f2.name = nm ∧ f2.mode = 114
      ∧ (f2.addr ≠ 0 →
          (f2.chunk - 1) * CS + f2.offset = e ∧ f2.addr = f2.chunk + 1)
      ∧ (f2.addr = 0 → e = data.length) := by
  have hfuel : (n + 1 - c) * (CS + 1) + (CS - o) + 2 ≤ 256 * (CS + 2) := by
    have h1 : (n + 1 - c) * (CS + 1) ≤ 255 * (CS + 1) :=
      Nat.mul_le_mul_right _ (by omega)
    omega
  obtain ⟨c2, o2, a2, hEq, hA, hB⟩ := readLoop_line CS n data hCS hn hb hlen
    (256 * (CS + 2)) c o ((c - 1) * CS + o) e none hc1 hcn ho rfl hpe hel he
    hfuel
  refine ⟨⟨nm, c2, o2, a2, 114⟩, ?_, rfl, rfl, ?_, ?_⟩
  · rw [jswrap_storagefile_readLine, jswrap_storagefile_read_internal]
    simp only []
    rw [if_neg (by simp), if_neg (by simp),
      if_pos (by norm_num : (-1 : Int) < 0),
      decide_eq_true (by norm_num : (-1 : Int) < 0), hEq]
    simp only [Option.getD_none, List.nil_append]
  · intro ha
    exact ⟨(hA ha).1, (hA ha).2.1⟩
  · intro ha
    exact (hB ha).1

theorem storagefile_readLine_spec_witness :
    ∃ f2 : StorageFile,
      jswrap_storagefile_readLine
          (streamStore 32 1 [111, 110, 101, 10, 116, 119, 111, 10, 116, 104,
            114, 101, 101]) 32 ⟨[], 1, 0, 1 + 1, 114⟩
        = ⟨(if 4 = (1 - 1) * 32 + 0 then none
            else some ((([111, 110, 101, 10, 116, 119, 111, 10, 116, 104, 114,
                101, 101] : List Nat).drop ((1 - 1) * 32 + 0)).take
              (4 - ((1 - 1) * 32 + 0)))),
           f2, false⟩
      ∧ f2.name = [] ∧ f2.mode = 114
      ∧ (f2.addr ≠ 0 →
          (f2.chunk - 1) * 32 + f2.offset = 4 ∧ f2.addr = f2.chunk + 1)
      ∧ (f2.addr = 0 → 4 = ([111, 110, 101, 10, 116, 119, 111, 10, 116, 104,
          114, 101, 101] : List Nat).length) :=
  storagefile_readLine_spec 32 1 1 0 4
    [111, 110, 101, 10, 116, 119, 111, 10, 116, 104, 114, 101, 101] []
    (by decide) (by decide) (by decide) (by decide) (by decide) (by decide)
    (by decide) (by decide) (by decide)
    (Or.inr ⟨by decide, by decide, by decide, by decide⟩)

end Espruino
